import Mathlib

/-!
Shallow embedding of the content-classification engine of the
TaskManagement backend (`src/services/classificationService.ts`).

Text is modelled as `List Char` (ASCII-level model of JS strings).
The natural-language date parser (`chrono-node`, an external npm
dependency) is modelled as an abstract function parameter returning the
matched text of each parse result, mirroring `dates.map(d => d.text)`.
-/

/-- Task categories (`TaskCategory` in `types`). -/
inductive TaskCategory where
  | scheduling
  | finance
  | technical
  | safety
  | general
deriving DecidableEq

/-- Task priorities (`TaskPriority` in `types`). -/
inductive TaskPriority where
  | high
  | medium
  | low
deriving DecidableEq

/-- Optional entity lists (`ExtractedEntities` in `types`): a field is
`none` when the corresponding extractor found no match. -/
structure ExtractedEntities where
  dates : Option (List (List Char))
  persons : Option (List (List Char))
  locations : Option (List (List Char))
  actionVerbs : Option (List (List Char))
deriving DecidableEq

/-- Result of `ClassificationService.classify`. -/
structure ClassificationResult where
  category : TaskCategory
  priority : TaskPriority
  extracted_entities : ExtractedEntities
  suggested_actions : List (List Char)
deriving DecidableEq

/-! ## Character classes (ASCII model of the JS regex character classes) -/

/-- JS `[A-Z]`. -/
def isUpper (c : Char) : Bool :=
  decide (65 ≤ c.toNat) && decide (c.toNat ≤ 90)

/-- JS `[a-z]`. -/
def isLower (c : Char) : Bool :=
  decide (97 ≤ c.toNat) && decide (c.toNat ≤ 122)

/-- JS `[0-9]`. -/
def isDigitC (c : Char) : Bool :=
  decide (48 ≤ c.toNat) && decide (c.toNat ≤ 57)

/-- JS `\s` (restricted to its ASCII members: space, tab, LF, VT, FF, CR). -/
def isWs (c : Char) : Bool :=
  decide (c.toNat = 32) || decide (c.toNat = 9) || decide (c.toNat = 10) ||
  decide (c.toNat = 11) || decide (c.toNat = 12) || decide (c.toNat = 13)

/-- JS `\w`, i.e. `[A-Za-z0-9_]`. -/
def isWordChar (c : Char) : Bool :=
  isUpper c || isLower c || isDigitC c || decide (c.toNat = 95)

/-- JS `String.prototype.toLowerCase` on one character (ASCII model). -/
def charLower (c : Char) : Char :=
  if isUpper c then Char.ofNat (c.toNat + 32) else c

/-! ## List utilities shared by the embedding -/

/-- JS `String.prototype.includes`: `pat` occurs as a contiguous substring. -/
def containsSub (s pat : List Char) : Bool :=
  match s with
  | [] => pat.isEmpty
  | c :: t => pat.isPrefixOf (c :: t) || containsSub t pat

/-- Set-insertion pass: keep each value not seen before, remembering the
seen values. -/
def dedupAux {α : Type} [DecidableEq α] (seen : List α) : List α → List α
  | [] => []
  | x :: xs =>
    if x ∈ seen then dedupAux seen xs else x :: dedupAux (x :: seen) xs

/-- JS `[...new Set(xs)]`: de-duplication keeping the first occurrence of
each value, in first-occurrence order. -/
def dedupFirst {α : Type} [DecidableEq α] (l : List α) : List α :=
  dedupAux [] l

/-- Index of the first occurrence of `a` (length of the list when absent). -/
def firstIdx {α : Type} [DecidableEq α] (a : α) : List α → Nat
  | [] => 0
  | x :: xs => if x = a then 0 else firstIdx a xs + 1

/-- Accumulator-based splitter: maximal runs of characters satisfying `p`. -/
def runsAux (p : Char → Bool) (acc : List Char) : List Char → List (List Char)
  | [] => if acc.isEmpty then [] else [acc.reverse]
  | c :: t =>
    if p c then runsAux p (c :: acc) t
    else if acc.isEmpty then runsAux p [] t
    else acc.reverse :: runsAux p [] t

/-- Maximal nonempty runs of characters satisfying `p`. -/
def runsBy (p : Char → Bool) (s : List Char) : List (List Char) :=
  runsAux p [] s

/-- JS `s.split(/\s+/)`: maximal non-whitespace runs, plus an empty token
at an end of the string that is whitespace (and `[""]` for the empty
string), exactly as `String.prototype.split` with a `\s+` separator. -/
def jsSplitWs (s : List Char) : List (List Char) :=
  match s, s.getLast? with
  | [], _ => [[]]
  | _ :: _, none => []
  | c :: _, some d =>
    (if isWs c then [[]] else []) ++ runsBy (fun x => ! isWs x) s ++
      (if isWs d then [[]] else [])

/-! ## Keyword tables (`CATEGORY_KEYWORDS`, `PRIORITY_KEYWORDS`,
`SUGGESTED_ACTIONS`, and the action-verb lexicon) -/

/-- `CATEGORY_KEYWORDS.scheduling`. -/
def schedulingKeywords : List (List Char) :=
  ["meeting".toList, "schedule".toList, "call".toList, "appointment".toList,
   "deadline".toList, "calendar".toList, "meet".toList, "conference".toList,
   "discussion".toList, "session".toList, "reminder".toList, "event".toList]

/-- `CATEGORY_KEYWORDS.finance`. -/
def financeKeywords : List (List Char) :=
  ["payment".toList, "invoice".toList, "bill".toList, "budget".toList,
   "cost".toList, "expense".toList, "financial".toList, "pay".toList,
   "purchase".toList, "spending".toList, "money".toList, "price".toList,
   "fund".toList, "salary".toList]

/-- `CATEGORY_KEYWORDS.technical`. -/
def technicalKeywords : List (List Char) :=
  ["bug".toList, "fix".toList, "error".toList, "install".toList,
   "repair".toList, "maintain".toList, "debug".toList, "code".toList,
   "deploy".toList, "server".toList, "database".toList, "api".toList,
   "software".toList, "system".toList]

/-- `CATEGORY_KEYWORDS.safety`. -/
def safetyKeywords : List (List Char) :=
  ["safety".toList, "hazard".toList, "inspection".toList, "compliance".toList,
   "ppe".toList, "risk".toList, "security".toList, "emergency".toList,
   "incident".toList, "accident".toList, "protocol".toList, "regulation".toList]

/-- `PRIORITY_KEYWORDS.high`. -/
def highPriorityKeywords : List (List Char) :=
  ["urgent".toList, "asap".toList, "immediately".toList, "today".toList,
   "critical".toList, "emergency".toList, "priority".toList, "now".toList,
   "crucial".toList, "vital".toList]

/-- `PRIORITY_KEYWORDS.medium`. -/
def mediumPriorityKeywords : List (List Char) :=
  ["soon".toList, "this week".toList, "important".toList, "upcoming".toList,
   "moderate".toList]

/-- The fixed 17-verb lexicon used by the action-verb extractor. -/
def actionVerbLexicon : List (List Char) :=
  ["schedule".toList, "prepare".toList, "review".toList, "complete".toList,
   "submit".toList, "send".toList, "update".toList, "fix".toList,
   "repair".toList, "install".toList, "check".toList, "verify".toList,
   "approve".toList, "confirm".toList, "notify".toList, "contact".toList,
   "assign".toList]

/-- `CATEGORY_KEYWORDS` as a function; `general` has no keywords. -/
def keywordsFor : TaskCategory → List (List Char)
  | .scheduling => schedulingKeywords
  | .finance => financeKeywords
  | .technical => technicalKeywords
  | .safety => safetyKeywords
  | .general => []

/-- `SUGGESTED_ACTIONS` lookup table: 4 labels per category. -/
def suggestedActionsFor : TaskCategory → List (List Char)
  | .scheduling =>
      ["Block calendar".toList, "Send invite".toList, "Prepare agenda".toList,
       "Set reminder".toList]
  | .finance =>
      ["Check budget".toList, "Get approval".toList, "Generate invoice".toList,
       "Update records".toList]
  | .technical =>
      ["Diagnose issue".toList, "Check resources".toList,
       "Assign technician".toList, "Document fix".toList]
  | .safety =>
      ["Conduct inspection".toList, "File report".toList,
       "Notify supervisor".toList, "Update checklist".toList]
  | .general =>
      ["Review details".toList, "Assign owner".toList, "Set deadline".toList,
       "Track progress".toList]

/-! ## Regex-pattern matchers for entity extraction

Each JS regex of `extractEntities` is re-expressed as an explicit matcher
with JS backtracking semantics specialised to the fixed pattern. A matcher
takes the text suffix starting at the attempted match position and returns
`some (capture, rest)` on success, where `capture` is the content of the
capture group and `rest` the suffix after the whole match. -/

/-- Length of `l.dropWhile p` never exceeds the length of `l`. -/
theorem length_dropWhile_le' (p : Char → Bool) (l : List Char) :
    (l.dropWhile p).length ≤ l.length := by
  have h := congrArg List.length (List.takeWhile_append_dropWhile p l)
  simp only [List.length_append] at h
  omega

/-- Consume a literal trigger word: `some` of the rest iff it is a prefix. -/
def afterTrigger (trig s : List Char) : Option (List Char) :=
  if trig.isPrefixOf s then some (s.drop trig.length) else none

/-- Match `\s+` followed by a token class whose first character is never
whitespace: equivalent to requiring at least one whitespace character and
skipping the whole whitespace run. -/
def wsThen (s : List Char) : Option (List Char) :=
  if (s.takeWhile isWs).isEmpty then none else some (s.dropWhile isWs)

/-- Greedy `(?:\s+[A-Z][a-z]+)*` tail of the person-name capture group:
returns the captured extension (including its whitespace) and the rest. -/
def nameStarAux : Nat → List Char → List Char × List Char
  | 0, s => ([], s)
  | fuel + 1, s =>
    if (s.takeWhile isWs).isEmpty then ([], s)
    else
      match s.dropWhile isWs with
      | [] => ([], s)
      | c :: t =>
        if isUpper c then
          let lows := t.takeWhile isLower
          if lows.isEmpty then ([], s)
          else
            let p := nameStarAux fuel (t.dropWhile isLower)
            (s.takeWhile isWs ++ c :: (lows ++ p.1), p.2)
        else ([], s)

/-- Entry point with enough fuel: every iteration of the star consumes at
least two characters, so `s.length` iterations can never be exhausted
before the star stops by itself. -/
def nameStar (s : List Char) : List Char × List Char :=
  nameStarAux s.length s

/-- The person-name capture group `([A-Z][a-z]+(?:\s+[A-Z][a-z]+)*)`. -/
def nameMatch (s : List Char) : Option (List Char × List Char) :=
  match s with
  | [] => none
  | c :: t =>
    if isUpper c then
      let lows := t.takeWhile isLower
      if lows.isEmpty then none
      else
        let p := nameStar (t.dropWhile isLower)
        some (c :: (lows ++ p.1), p.2)
    else none

/-- Trigger followed by `\s+` followed by the person-name capture group. -/
def wsName (r : List Char) : Option (List Char × List Char) :=
  (wsThen r).bind nameMatch

/-- The `\s+(?:to)?\s+` part of the `assign` branch followed by the name:
JS backtracking either consumes a literal `to` between two whitespace runs,
or needs at least two whitespace characters (the shortened first `\s+` plus
the second `\s+`). -/
def innerToTail (r : List Char) : Option (List Char × List Char) :=
  let n := (r.takeWhile isWs).length
  let r1 := r.dropWhile isWs
  if n = 0 then none
  else if ("to".toList).isPrefixOf r1 then (wsThen (r1.drop 2)).bind nameMatch
  else if 2 ≤ n then nameMatch r1
  else none

/-- The `assign(?:ed)?\s+(?:to)?` branch after the literal `assign`
(a greedy optional `ed`; when present and the tail fails, the backtracked
attempt without `ed` fails at the following `\s+`). -/
def assignTail (r : List Char) : Option (List Char × List Char) :=
  innerToTail (if ("ed".toList).isPrefixOf r then r.drop 2 else r)

/-- Person pattern 1:
`(?:with|by|assign(?:ed)?\s+(?:to)?)\s+([A-Z][a-z]+(?:\s+[A-Z][a-z]+)*)`,
attempted at the start of `s`, alternatives in source order. -/
def tryP1 (s : List Char) : Option (List Char × List Char) :=
  ((afterTrigger ("with".toList) s).bind wsName) <|>
  ((afterTrigger ("by".toList) s).bind wsName) <|>
  ((afterTrigger ("assign".toList) s).bind assignTail)

/-- Person pattern 2:
`(?:contact|reach out to|notify|inform)\s+([A-Z][a-z]+(?:\s+[A-Z][a-z]+)*)`. -/
def tryP2 (s : List Char) : Option (List Char × List Char) :=
  ((afterTrigger ("contact".toList) s).bind wsName) <|>
  ((afterTrigger ("reach out to".toList) s).bind wsName) <|>
  ((afterTrigger ("notify".toList) s).bind wsName) <|>
  ((afterTrigger ("inform".toList) s).bind wsName)

/-- Greedy `(?:\s+[A-Z0-9][a-z0-9]*)*` tail of the location capture of
pattern (a); unlike the person name, follow-up words may start with a
digit and their tail run may be empty. -/
def locStarAux : Nat → List Char → List Char × List Char
  | 0, s => ([], s)
  | fuel + 1, s =>
    if (s.takeWhile isWs).isEmpty then ([], s)
    else
      match s.dropWhile isWs with
      | [] => ([], s)
      | c :: t =>
        if isUpper c || isDigitC c then
          let lows := t.takeWhile (fun x => isLower x || isDigitC x)
          let p := locStarAux fuel
            (t.dropWhile (fun x => isLower x || isDigitC x))
          (s.takeWhile isWs ++ c :: (lows ++ p.1), p.2)
        else ([], s)

/-- Entry point with enough fuel: every iteration consumes at least two
characters, so `s.length` iterations always suffice. -/
def locStar (s : List Char) : List Char × List Char :=
  locStarAux s.length s

/-- The location capture group `([A-Z][a-z]+(?:\s+[A-Z0-9][a-z0-9]*)*)`. -/
def locNameMatch (s : List Char) : Option (List Char × List Char) :=
  match s with
  | [] => none
  | c :: t =>
    if isUpper c then
      let lows := t.takeWhile isLower
      if lows.isEmpty then none
      else
        let p := locStar (t.dropWhile isLower)
        some (c :: (lows ++ p.1), p.2)
    else none

/-- Location pattern (a):
`(?:at|in|location:|venue:)\s+([A-Z][a-z]+(?:\s+[A-Z0-9][a-z0-9]*)*)`. -/
def tryLA (s : List Char) : Option (List Char × List Char) :=
  ((afterTrigger ("at".toList) s).bind (fun r => (wsThen r).bind locNameMatch)) <|>
  ((afterTrigger ("in".toList) s).bind (fun r => (wsThen r).bind locNameMatch)) <|>
  ((afterTrigger ("location:".toList) s).bind (fun r => (wsThen r).bind locNameMatch)) <|>
  ((afterTrigger ("venue:".toList) s).bind (fun r => (wsThen r).bind locNameMatch))

/-- Case-insensitive literal trigger (the `i` flag of pattern (b)). -/
def afterTriggerCI (trig s : List Char) : Option (List Char) :=
  if (s.take trig.length).map charLower = trig then some (s.drop trig.length)
  else none

/-- The capture group `([A-Z0-9]+)` of pattern (b); under the `i` flag it
matches a maximal nonempty run of ASCII letters and digits. -/
def alnumRun (s : List Char) : Option (List Char × List Char) :=
  match s with
  | [] => none
  | c :: t =>
    if isUpper c || isLower c || isDigitC c then
      some (c :: t.takeWhile (fun x => isUpper x || isLower x || isDigitC x),
        t.dropWhile (fun x => isUpper x || isLower x || isDigitC x))
    else none

/-- Location pattern (b): `(?:room|office|building|floor)\s+([A-Z0-9]+)`
with the `gi` flags. -/
def tryLB (s : List Char) : Option (List Char × List Char) :=
  ((afterTriggerCI ("room".toList) s).bind (fun r => (wsThen r).bind alnumRun)) <|>
  ((afterTriggerCI ("office".toList) s).bind (fun r => (wsThen r).bind alnumRun)) <|>
  ((afterTriggerCI ("building".toList) s).bind (fun r => (wsThen r).bind alnumRun)) <|>
  ((afterTriggerCI ("floor".toList) s).bind (fun r => (wsThen r).bind alnumRun))

/-- JS `String.prototype.matchAll` over a global regex that never matches
the empty string: attempt the matcher at every position from left to
right, and resume after the end of each match. The length guard is always
satisfied by the matchers above, which consume at least their trigger. -/
def scanAux (f : List Char → Option (List Char × List Char)) :
    Nat → List Char → List (List Char)
  | 0, _ => []
  | _ + 1, [] => []
  | fuel + 1, c :: t =>
    match f (c :: t) with
    | none => scanAux f fuel t
    | some (cap, rest) =>
      cap :: scanAux f fuel (if rest.length ≤ t.length then rest else t)

/-- Entry point with enough fuel: the scan advances at least one
character per step, so `s.length` steps always suffice. -/
def scanMatches (f : List Char → Option (List Char × List Char))
    (s : List Char) : List (List Char) :=
  scanAux f s.length s

/-! ## The classification service -/

/-- The combined text `` `${title} ${description}` ``. -/
def fullTextOf (title desc : List Char) : List Char :=
  title ++ (' ' :: desc)

/-- The lower-cased combined text used by category and priority detection. -/
def contentOf (title desc : List Char) : List Char :=
  (fullTextOf title desc).map charLower

/-- Score of one category: for each keyword the regex
`` new RegExp(`\\b${keyword}\\w*\\b`, 'gi') `` counts the non-overlapping
matches in the content; a match always starts at a word boundary and
consumes a whole maximal `\w`-run, so the count is the number of maximal
word-character runs having the keyword as a prefix. -/
def categoryScore (c : TaskCategory) (content : List Char) : Nat :=
  ((keywordsFor c).map
    (fun k => (runsBy isWordChar content).countP (fun w => k.isPrefixOf w))).sum

/-- Iteration order of `Object.entries(CATEGORY_KEYWORDS)` (insertion
order of the object literal). -/
def categoryOrder : List TaskCategory :=
  [.scheduling, .finance, .technical, .safety, .general]

/-- `detectCategory`: running maximum starting at `(0, general)`, updated
only on a strictly greater score. -/
def detectCategory (content : List Char) : TaskCategory :=
  (categoryOrder.foldl
    (fun acc c =>
      if categoryScore c content > acc.1 then (categoryScore c content, c)
      else acc)
    (0, TaskCategory.general)).2

/-- `detectPriority`: short-circuit substring search over the high list,
then the medium list, defaulting to low. -/
def detectPriority (content : List Char) : TaskPriority :=
  if highPriorityKeywords.any (fun k => containsSub content k) then .high
  else if mediumPriorityKeywords.any (fun k => containsSub content k) then .medium
  else .low

/-- All capture-group values of the two person regexes, in source order
(all matches of pattern 1, then all matches of pattern 2). -/
def personsRaw (s : List Char) : List (List Char) :=
  scanMatches tryP1 s ++ scanMatches tryP2 s

/-- All capture-group values of the two location regexes. -/
def locationsRaw (s : List Char) : List (List Char) :=
  scanMatches tryLA s ++ scanMatches tryLB s

/-- `word.replace(/[^a-z]/g, '')`. -/
def cleanWord (w : List Char) : List Char :=
  w.filter isLower

/-- The action verbs found in order: split the lower-cased text on `\s+`,
clean each token, and keep those in the lexicon. -/
def verbsRaw (s : List Char) : List (List Char) :=
  ((jsSplitWs (s.map charLower)).map cleanWord).filter
    (fun w => actionVerbLexicon.contains w)

/-- `extractEntities` with the chrono-node date parser abstracted as
`chrono` (it returns the matched text of each parse result). Each field
is populated only when its raw match list is nonempty; persons,
locations, and action verbs are de-duplicated via `[...new Set(xs)]`. -/
def extractEntities (chrono : List Char → List (List Char))
    (title desc : List Char) : ExtractedEntities :=
  let fullText := fullTextOf title desc
  let dates := chrono fullText
  let persons := personsRaw fullText
  let locations := locationsRaw fullText
  let verbs := verbsRaw fullText
  ⟨if dates.length > 0 then some dates else none,
   if persons.length > 0 then some (dedupFirst persons) else none,
   if locations.length > 0 then some (dedupFirst locations) else none,
   if verbs.length > 0 then some (dedupFirst verbs) else none⟩

/-- `ClassificationService.classify`. -/
def classify (chrono : List Char → List (List Char))
    (title desc : List Char) : ClassificationResult :=
  let content := contentOf title desc
  let category := detectCategory content
  ⟨category, detectPriority content, extractEntities chrono title desc,
   suggestedActionsFor category⟩

/-- The always-empty date parser, standing in for chrono-node on texts
with no date or time expression. -/
def noDates : List Char → List (List Char) :=
  fun _ => []

/-! ## General lemmas about the embedding -/

/-- The category field of a classification result. -/
theorem classify_category (chrono : List Char → List (List Char))
    (title desc : List Char) :
    (classify chrono title desc).category
      = detectCategory (contentOf title desc) := by
  simp only [classify]

/-- The priority field of a classification result. -/
theorem classify_priority (chrono : List Char → List (List Char))
    (title desc : List Char) :
    (classify chrono title desc).priority
      = detectPriority (contentOf title desc) := by
  simp only [classify]

/-- The suggested-actions field of a classification result. -/
theorem classify_suggested (chrono : List Char → List (List Char))
    (title desc : List Char) :
    (classify chrono title desc).suggested_actions
      = suggestedActionsFor (detectCategory (contentOf title desc)) := by
  simp only [classify]

/-- The entities field of a classification result. -/
theorem classify_entities (chrono : List Char → List (List Char))
    (title desc : List Char) :
    (classify chrono title desc).extracted_entities
      = extractEntities chrono title desc := by
  simp only [classify]

/-- Every category value is one of the five declared constructors. -/
theorem taskCategory_cases (c : TaskCategory) :
    c = .scheduling ∨ c = .finance ∨ c = .technical ∨ c = .safety ∨
      c = .general := by
  cases c <;> simp

/-- Every priority value is one of the three declared constructors. -/
theorem taskPriority_cases (p : TaskPriority) :
    p = .high ∨ p = .medium ∨ p = .low := by
  cases p <;> simp

/-- Each suggested-action table has exactly 4 entries. -/
theorem suggestedActionsFor_length (c : TaskCategory) :
    (suggestedActionsFor c).length = 4 := by
  cases c <;> rfl

/-- C1: for every date parser and every pair of string inputs, `classify`
is a total function whose category is one of the 5 values, whose priority
is one of the 3 values, and whose suggested actions are exactly the fixed
4-entry table of the returned category. -/
theorem classify_total_and_wellformed (chrono : List Char → List (List Char))
    (title desc : List Char) :
    ((classify chrono title desc).category = .scheduling ∨
      (classify chrono title desc).category = .finance ∨
      (classify chrono title desc).category = .technical ∨
      (classify chrono title desc).category = .safety ∨
      (classify chrono title desc).category = .general) ∧
    ((classify chrono title desc).priority = .high ∨
      (classify chrono title desc).priority = .medium ∨
      (classify chrono title desc).priority = .low) ∧
    (classify chrono title desc).suggested_actions
      = suggestedActionsFor (classify chrono title desc).category ∧
    (classify chrono title desc).suggested_actions.length = 4 := by
  refine ⟨taskCategory_cases _, taskPriority_cases _, ?_, ?_⟩
  · rw [classify_suggested, classify_category]
  · rw [classify_suggested]
    exact suggestedActionsFor_length _

/-- C8: the requirements example classifies as a high-priority scheduling
task whose suggestions include blocking the calendar and sending the
invite, for any date parser. -/
theorem classify_requirements_example (chrono : List Char → List (List Char)) :
    (classify chrono
      ("Schedule urgent meeting with team today about budget allocation".toList)
      ("Need to discuss Q4 budget with the team immediately".toList)).category
        = .scheduling ∧
    (classify chrono
      ("Schedule urgent meeting with team today about budget allocation".toList)
      ("Need to discuss Q4 budget with the team immediately".toList)).priority
        = .high ∧
    ("Block calendar".toList) ∈ (classify chrono
      ("Schedule urgent meeting with team today about budget allocation".toList)
      ("Need to discuss Q4 budget with the team immediately".toList)).suggested_actions ∧
    ("Send invite".toList) ∈ (classify chrono
      ("Schedule urgent meeting with team today about budget allocation".toList)
      ("Need to discuss Q4 budget with the team immediately".toList)).suggested_actions := by
  refine ⟨?_, ?_, ?_, ?_⟩
  · rw [classify_category]; decide
  · rw [classify_priority]; decide
  · rw [classify_suggested]; decide
  · rw [classify_suggested]; decide

/-- The `general` category has no keywords, so its score is always 0. -/
theorem categoryScore_general (content : List Char) :
    categoryScore .general content = 0 := rfl

/-- Position of a category in the iteration order of `detectCategory`. -/
def ordIdx : TaskCategory → Nat
  | .scheduling => 0
  | .finance => 1
  | .technical => 2
  | .safety => 3
  | .general => 4

/-- A category whose score strictly dominates all others is detected. -/
theorem detectCategory_of_strict_max (content : List Char) (c : TaskCategory)
    (h : ∀ c2, c2 ≠ c →
      categoryScore c2 content < categoryScore c content) :
    detectCategory content = c := by
  cases c with
  | scheduling =>
    have a1 := h .finance (by decide)
    have a2 := h .technical (by decide)
    have a3 := h .safety (by decide)
    have a4 := h .general (by decide)
    have hg : categoryScore .general content = 0 := rfl
    unfold detectCategory categoryOrder
    simp only [List.foldl_cons, List.foldl_nil]
    split_ifs <;> first | rfl | omega
  | finance =>
    have a1 := h .scheduling (by decide)
    have a2 := h .technical (by decide)
    have a3 := h .safety (by decide)
    have a4 := h .general (by decide)
    have hg : categoryScore .general content = 0 := rfl
    unfold detectCategory categoryOrder
    simp only [List.foldl_cons, List.foldl_nil]
    split_ifs <;> first | rfl | omega
  | technical =>
    have a1 := h .scheduling (by decide)
    have a2 := h .finance (by decide)
    have a3 := h .safety (by decide)
    have a4 := h .general (by decide)
    have hg : categoryScore .general content = 0 := rfl
    unfold detectCategory categoryOrder
    simp only [List.foldl_cons, List.foldl_nil]
    split_ifs <;> first | rfl | omega
  | safety =>
    have a1 := h .scheduling (by decide)
    have a2 := h .finance (by decide)
    have a3 := h .technical (by decide)
    have a4 := h .general (by decide)
    have hg : categoryScore .general content = 0 := rfl
    unfold detectCategory categoryOrder
    simp only [List.foldl_cons, List.foldl_nil]
    split_ifs <;> first | rfl | omega
  | general =>
    have a1 := h .scheduling (by decide)
    have hg : categoryScore .general content = 0 := rfl
    unfold detectCategory categoryOrder
    simp only [List.foldl_cons, List.foldl_nil]
    split_ifs <;> first | rfl | omega

/-- When every category scores zero, the running maximum never updates. -/
theorem detectCategory_of_all_zero (content : List Char)
    (h : ∀ c2, categoryScore c2 content = 0) :
    detectCategory content = .general := by
  have a1 := h .scheduling
  have a2 := h .finance
  have a3 := h .technical
  have a4 := h .safety
  have a5 := h .general
  unfold detectCategory categoryOrder
  simp only [List.foldl_cons, List.foldl_nil]
  split_ifs <;> first | rfl | omega

/-- C2: the returned category is determined by the keyword scores: a
category whose aggregate word-boundary-prefix score strictly exceeds
every other category's score is returned, and when every category scores
zero the result is `general`. -/
theorem classify_category_by_scores (chrono : List Char → List (List Char))
    (title desc : List Char) (c : TaskCategory) :
    ((∀ c2, c2 ≠ c → categoryScore c2 (contentOf title desc)
        < categoryScore c (contentOf title desc)) →
      (classify chrono title desc).category = c) ∧
    ((∀ c2, categoryScore c2 (contentOf title desc) = 0) →
      (classify chrono title desc).category = .general) := by
  rw [classify_category]
  exact ⟨detectCategory_of_strict_max _ c, detectCategory_of_all_zero _⟩

/-- Witness for C2 at concrete inputs: "meeting" scores strictly highest
for scheduling (the keywords `meeting` and `meet` both match), and a
keyword-free text falls back to `general`. -/
theorem classify_category_by_scores_witness :
    (classify noDates ("meeting".toList) ("".toList)).category = .scheduling ∧
    (classify noDates ("xyz".toList) ("".toList)).category = .general := by
  constructor
  · refine (classify_category_by_scores noDates _ _ .scheduling).1 ?_
    intro c2 hc
    cases c2 with
    | scheduling => exact absurd rfl hc
    | finance => decide
    | technical => decide
    | safety => decide
    | general => decide
  · refine (classify_category_by_scores noDates _ _ .general).2 ?_
    intro c2
    cases c2 <;> decide

/-- C3 counterexample: in "call bug" the scheduling and technical
categories tie with the nonzero maximal score 1, yet `classify` returns
`scheduling`, not `general`. -/
theorem tie_returns_first_not_general :
    categoryScore .scheduling (contentOf ("call bug".toList) ("".toList)) = 1 ∧
    categoryScore .finance (contentOf ("call bug".toList) ("".toList)) = 0 ∧
    categoryScore .technical (contentOf ("call bug".toList) ("".toList)) = 1 ∧
    categoryScore .safety (contentOf ("call bug".toList) ("".toList)) = 0 ∧
    categoryScore .general (contentOf ("call bug".toList) ("".toList)) = 0 ∧
    (classify noDates ("call bug".toList) ("".toList)).category = .scheduling ∧
    (classify noDates ("call bug".toList) ("".toList)).category ≠ .general := by
  refine ⟨by decide, by decide, by decide, by decide, by decide, ?_, ?_⟩
  · rw [classify_category]; decide
  · rw [classify_category]; decide

/-- C3 amended: when two or more non-general categories tie at the
nonzero maximal score, `classify` returns the tied category that comes
first in the iteration order scheduling, finance, technical, safety —
not `general`. Stated generally: a category with maximal score, positive
score, and strictly greater score than every earlier category in the
order is returned. -/
theorem classify_tie_first_in_order (chrono : List Char → List (List Char))
    (title desc : List Char) (c : TaskCategory)
    (hmax : ∀ c2, categoryScore c2 (contentOf title desc)
      ≤ categoryScore c (contentOf title desc))
    (hpos : 0 < categoryScore c (contentOf title desc))
    (hfirst : ∀ c2, ordIdx c2 < ordIdx c →
      categoryScore c2 (contentOf title desc)
        < categoryScore c (contentOf title desc)) :
    (classify chrono title desc).category = c := by
  rw [classify_category]
  cases c with
  | scheduling =>
    have a1 := hmax .finance
    have a2 := hmax .technical
    have a3 := hmax .safety
    have hg : categoryScore .general (contentOf title desc) = 0 := rfl
    unfold detectCategory categoryOrder
    simp only [List.foldl_cons, List.foldl_nil]
    split_ifs <;> first | rfl | omega
  | finance =>
    have a1 := hfirst .scheduling (by decide)
    have a2 := hmax .technical
    have a3 := hmax .safety
    have hg : categoryScore .general (contentOf title desc) = 0 := rfl
    unfold detectCategory categoryOrder
    simp only [List.foldl_cons, List.foldl_nil]
    split_ifs <;> first | rfl | omega
  | technical =>
    have a1 := hfirst .scheduling (by decide)
    have a2 := hfirst .finance (by decide)
    have a3 := hmax .safety
    have hg : categoryScore .general (contentOf title desc) = 0 := rfl
    unfold detectCategory categoryOrder
    simp only [List.foldl_cons, List.foldl_nil]
    split_ifs <;> first | rfl | omega
  | safety =>
    have a1 := hfirst .scheduling (by decide)
    have a2 := hfirst .finance (by decide)
    have a3 := hfirst .technical (by decide)
    have hg : categoryScore .general (contentOf title desc) = 0 := rfl
    unfold detectCategory categoryOrder
    simp only [List.foldl_cons, List.foldl_nil]
    split_ifs <;> first | rfl | omega
  | general =>
    have hg : categoryScore .general (contentOf title desc) = 0 := rfl
    omega

/-- Witness for the amended C3 at the tie input "call bug": the tied
maximum 1 is attained by scheduling first, and scheduling is returned. -/
theorem classify_tie_first_in_order_witness :
    (classify noDates ("call bug".toList) ("".toList)).category = .scheduling := by
  refine classify_tie_first_in_order noDates _ _ .scheduling ?_ ?_ ?_
  · intro c2; cases c2 <;> decide
  · decide
  · intro c2 h2
    cases c2 <;> first | decide | exact absurd h2 (by decide)

/-- C4: priority is a two-tier short-circuit substring search over the
lower-cased combined text: any high keyword as substring gives `high`,
otherwise any medium keyword gives `medium`, otherwise `low`; in
particular each of the six urgency keywords named by the spec forces
`high`. -/
theorem classify_priority_two_tier (chrono : List Char → List (List Char))
    (title desc : List Char) :
    ((∃ k ∈ highPriorityKeywords,
        containsSub (contentOf title desc) k = true) →
      (classify chrono title desc).priority = .high) ∧
    ((∀ k ∈ highPriorityKeywords,
        containsSub (contentOf title desc) k = false) →
      (∃ k ∈ mediumPriorityKeywords,
        containsSub (contentOf title desc) k = true) →
      (classify chrono title desc).priority = .medium) ∧
    ((∀ k ∈ highPriorityKeywords,
        containsSub (contentOf title desc) k = false) →
      (∀ k ∈ mediumPriorityKeywords,
        containsSub (contentOf title desc) k = false) →
      (classify chrono title desc).priority = .low) ∧
    (∀ k ∈ (["urgent".toList, "asap".toList, "immediately".toList,
        "today".toList, "critical".toList, "emergency".toList] :
          List (List Char)),
      containsSub (contentOf title desc) k = true →
      (classify chrono title desc).priority = .high) := by
  rw [classify_priority]
  have hneg : ∀ ks : List (List Char),
      (∀ k ∈ ks, containsSub (contentOf title desc) k = false) →
      ¬ (ks.any (fun k => containsSub (contentOf title desc) k) = true) := by
    intro ks hks hcontra
    rcases List.any_eq_true.mp hcontra with ⟨k, hk, hck⟩
    exact Bool.false_ne_true ((hks k hk).symm.trans hck)
  refine ⟨?_, ?_, ?_, ?_⟩
  · rintro ⟨k, hk, hc⟩
    unfold detectPriority
    rw [if_pos (List.any_eq_true.mpr ⟨k, hk, hc⟩)]
  · rintro hh ⟨k, hk, hc⟩
    unfold detectPriority
    rw [if_neg (hneg _ hh), if_pos (List.any_eq_true.mpr ⟨k, hk, hc⟩)]
  · intro hh hm
    unfold detectPriority
    rw [if_neg (hneg _ hh), if_neg (hneg _ hm)]
  · intro k hk hc
    have hk2 : k ∈ highPriorityKeywords := by fin_cases hk <;> decide
    unfold detectPriority
    rw [if_pos (List.any_eq_true.mpr ⟨k, hk2, hc⟩)]

/-- Witness for C4: "Urgent task" contains the high keyword `urgent` and
is classified high; a text with only a medium keyword is medium; a text
with neither is low. -/
theorem classify_priority_two_tier_witness :
    (classify noDates ("Urgent task".toList)
      ("needs immediate attention".toList)).priority = .high ∧
    (classify noDates ("Task for this week".toList)
      ("complete soon".toList)).priority = .medium ∧
    (classify noDates ("Regular task".toList)
      ("This can be done whenever convenient".toList)).priority = .low := by
  refine ⟨?_, ?_, ?_⟩
  · exact (classify_priority_two_tier noDates _ _).2.2.2 ("urgent".toList)
      (by decide) (by decide)
  · exact (classify_priority_two_tier noDates _ _).2.1
      (by intro k hk; fin_cases hk <;> decide)
      ⟨"soon".toList, by decide, by decide⟩
  · exact (classify_priority_two_tier noDates _ _).2.2.1
      (by intro k hk; fin_cases hk <;> decide)
      (by intro k hk; fin_cases hk <;> decide)

/-- C9: beyond the six keywords the spec lists, the code's high list also
contains `priority`, `now`, `crucial`, and `vital`, and matching is raw
substring search on the lower-cased text, so any text containing "now" —
also inside a longer word — is classified high. -/
theorem high_list_superset_and_now_substring
    (chrono : List Char → List (List Char)) (title desc : List Char) :
    ("priority".toList ∈ highPriorityKeywords ∧
      "now".toList ∈ highPriorityKeywords ∧
      "crucial".toList ∈ highPriorityKeywords ∧
      "vital".toList ∈ highPriorityKeywords) ∧
    (containsSub (contentOf title desc) ("now".toList) = true →
      (classify chrono title desc).priority = .high) := by
  refine ⟨by decide, ?_⟩
  intro hc
  rw [classify_priority]
  unfold detectPriority
  rw [if_pos (List.any_eq_true.mpr ⟨"now".toList, by decide, hc⟩)]

/-- Witness for C9: "snowstorm" contains "now" inside a longer word and
is classified high. -/
theorem high_list_superset_and_now_substring_witness :
    (classify noDates ("snowstorm".toList) ("".toList)).priority = .high :=
  (high_list_superset_and_now_substring noDates _ _).2 (by decide)

/-- The dates field of `extractEntities`. -/
theorem entities_dates (chrono : List Char → List (List Char))
    (title desc : List Char) :
    (extractEntities chrono title desc).dates
      = (if (chrono (fullTextOf title desc)).length > 0
          then some (chrono (fullTextOf title desc)) else none) := by
  simp only [extractEntities]

/-- The persons field of `extractEntities`. -/
theorem entities_persons (chrono : List Char → List (List Char))
    (title desc : List Char) :
    (extractEntities chrono title desc).persons
      = (if (personsRaw (fullTextOf title desc)).length > 0
          then some (dedupFirst (personsRaw (fullTextOf title desc)))
          else none) := by
  simp only [extractEntities]

/-- The locations field of `extractEntities`. -/
theorem entities_locations (chrono : List Char → List (List Char))
    (title desc : List Char) :
    (extractEntities chrono title desc).locations
      = (if (locationsRaw (fullTextOf title desc)).length > 0
          then some (dedupFirst (locationsRaw (fullTextOf title desc)))
          else none) := by
  simp only [extractEntities]

/-- The action-verbs field of `extractEntities`. -/
theorem entities_actionVerbs (chrono : List Char → List (List Char))
    (title desc : List Char) :
    (extractEntities chrono title desc).actionVerbs
      = (if (verbsRaw (fullTextOf title desc)).length > 0
          then some (dedupFirst (verbsRaw (fullTextOf title desc)))
          else none) := by
  simp only [extractEntities]

/-- De-duplication of a nonempty list is nonempty. -/
theorem dedupFirst_ne_nil {α : Type} [DecidableEq α] (l : List α)
    (h : l ≠ []) : dedupFirst l ≠ [] := by
  cases l with
  | nil => exact absurd rfl h
  | cons x xs => simp [dedupFirst, dedupAux]

/-- An optional field built from a raw list without de-duplication. -/
theorem optField_plain_spec (raw : List (List Char)) :
    ((if raw.length > 0 then some raw else none) = none ↔ raw = []) ∧
    (∀ l, (if raw.length > 0 then some raw else none) = some l → l ≠ []) := by
  cases raw <;> simp

/-- An optional field built from a raw list with de-duplication. -/
theorem optField_dedup_spec (raw : List (List Char)) :
    ((if raw.length > 0 then some (dedupFirst raw) else none) = none
      ↔ raw = []) ∧
    (∀ l, (if raw.length > 0 then some (dedupFirst raw) else none) = some l
      → l ≠ []) := by
  cases raw with
  | nil => simp
  | cons x xs =>
    refine ⟨by simp, ?_⟩
    intro l hl
    simp only [List.length_cons, gt_iff_lt, Nat.succ_pos, if_pos,
      Option.some.injEq] at hl
    rw [← hl]
    exact dedupFirst_ne_nil _ (by simp)

/-- C5: each of the four entity fields is present exactly when its
extractor found at least one match, and a present field is never the
empty sequence; in particular, with a date parser finding nothing in
"Task ", `classify("Task", "")` has all entity fields absent. -/
theorem entities_present_iff_found (chrono : List Char → List (List Char))
    (title desc : List Char) :
    ((classify chrono title desc).extracted_entities.dates = none ↔
      chrono (fullTextOf title desc) = []) ∧
    (∀ l, (classify chrono title desc).extracted_entities.dates = some l →
      l ≠ []) ∧
    ((classify chrono title desc).extracted_entities.persons = none ↔
      personsRaw (fullTextOf title desc) = []) ∧
    (∀ l, (classify chrono title desc).extracted_entities.persons = some l →
      l ≠ []) ∧
    ((classify chrono title desc).extracted_entities.locations = none ↔
      locationsRaw (fullTextOf title desc) = []) ∧
    (∀ l, (classify chrono title desc).extracted_entities.locations = some l →
      l ≠ []) ∧
    ((classify chrono title desc).extracted_entities.actionVerbs = none ↔
      verbsRaw (fullTextOf title desc) = []) ∧
    (∀ l, (classify chrono title desc).extracted_entities.actionVerbs = some l →
      l ≠ []) ∧
    (∀ q : List Char → List (List Char), q ("Task ".toList) = [] →
      (classify q ("Task".toList) ("".toList)).extracted_entities
        = ⟨none, none, none, none⟩) := by
  rw [classify_entities, entities_dates, entities_persons, entities_locations,
    entities_actionVerbs]
  refine ⟨(optField_plain_spec _).1, (optField_plain_spec _).2,
    (optField_dedup_spec _).1, (optField_dedup_spec _).2,
    (optField_dedup_spec _).1, (optField_dedup_spec _).2,
    (optField_dedup_spec _).1, (optField_dedup_spec _).2, ?_⟩
  intro q hq
  rw [classify_entities]
  have he : fullTextOf ("Task".toList) ("".toList) = "Task ".toList := by decide
  simp only [extractEntities]
  rw [he, hq]
  decide

/-- C7 counterexample: the text "with John Smith Brown" contains
"with John Smith", but the greedy capture extends over the following
capitalized word, so the returned persons list holds only
"John Smith Brown" and not the exact string "John Smith". -/
theorem persons_longer_capture_counterexample :
    containsSub (fullTextOf ("with John Smith Brown".toList) ("".toList))
      ("with John Smith".toList) = true ∧
    (classify noDates ("with John Smith Brown".toList)
      ("".toList)).extracted_entities.persons
      = some [("John Smith Brown".toList)] ∧
    ("John Smith".toList) ∉ ([("John Smith Brown".toList)] :
      List (List Char)) := by
  refine ⟨by decide, ?_, by decide⟩
  rw [classify_entities]
  decide

/-- C7 amended: the trigger phrases do extract the following capitalized
name when the name run ends there: "Meeting with John Smith" yields
exactly the person "John Smith", and "Please assign to Jane Doe" yields
exactly "Jane Doe", for any date parser. -/
theorem persons_trigger_extraction (chrono : List Char → List (List Char)) :
    (classify chrono ("Meeting with John Smith".toList)
      ("".toList)).extracted_entities.persons
      = some [("John Smith".toList)] ∧
    (classify chrono ("Please assign to Jane Doe".toList)
      ("".toList)).extracted_entities.persons
      = some [("Jane Doe".toList)] := by
  constructor <;> (rw [classify_entities, entities_persons]; decide)

/-! ## First-occurrence de-duplication lemmas -/

/-- Membership in a set-insertion pass. -/
theorem mem_dedupAux {α : Type} [DecidableEq α] (a : α) (l : List α) :
    ∀ seen, a ∈ dedupAux seen l ↔ a ∈ l ∧ a ∉ seen := by
  induction l with
  | nil => intro seen; simp [dedupAux]
  | cons x xs ih =>
    intro seen
    simp only [dedupAux]
    by_cases hx : x ∈ seen
    · rw [if_pos hx, ih seen]
      constructor
      · rintro ⟨h1, h2⟩
        exact ⟨List.mem_cons_of_mem _ h1, h2⟩
      · rintro ⟨h1, h2⟩
        rcases List.mem_cons.mp h1 with rfl | h1
        · exact absurd hx h2
        · exact ⟨h1, h2⟩
    · rw [if_neg hx]
      simp only [List.mem_cons, ih (x :: seen)]
      constructor
      · rintro (rfl | ⟨h1, h2⟩)
        · exact ⟨Or.inl rfl, hx⟩
        · exact ⟨Or.inr h1, fun hs => h2 (Or.inr hs)⟩
      · rintro ⟨h1 | h1, h2⟩
        · exact Or.inl h1
        · by_cases hax : a = x
          · exact Or.inl hax
          · refine Or.inr ⟨h1, fun hs => ?_⟩
            rcases hs with h | h
            · exact hax h
            · exact h2 h

/-- A set-insertion pass yields no duplicates. -/
theorem nodup_dedupAux {α : Type} [DecidableEq α] (l : List α) :
    ∀ seen, (dedupAux seen l).Nodup := by
  induction l with
  | nil => intro seen; simp [dedupAux]
  | cons x xs ih =>
    intro seen
    simp only [dedupAux]
    by_cases hx : x ∈ seen
    · rw [if_pos hx]; exact ih seen
    · rw [if_neg hx]
      refine List.nodup_cons.mpr ⟨?_, ih (x :: seen)⟩
      intro hmem
      exact ((mem_dedupAux x xs _).mp hmem).2 (List.mem_cons_self x seen)

/-- A set-insertion pass preserves the relative order of first
occurrences. -/
theorem firstIdx_dedupAux_lt {α : Type} [DecidableEq α] (l : List α) :
    ∀ seen a b, a ∈ dedupAux seen l → b ∈ dedupAux seen l →
      firstIdx a (dedupAux seen l) < firstIdx b (dedupAux seen l) →
      firstIdx a l < firstIdx b l := by
  induction l with
  | nil => intro seen a b ha; simp [dedupAux] at ha
  | cons x xs ih =>
    intro seen a b ha hb h
    by_cases hx : x ∈ seen
    · simp only [dedupAux] at ha hb h
      rw [if_pos hx] at ha hb h
      have hax : ¬ (x = a) := fun he =>
        ((mem_dedupAux a xs seen).mp ha).2 (he ▸ hx)
      have hbx : ¬ (x = b) := fun he =>
        ((mem_dedupAux b xs seen).mp hb).2 (he ▸ hx)
      simp only [firstIdx, if_neg hax, if_neg hbx]
      have := ih seen a b ha hb h
      omega
    · simp only [dedupAux] at ha hb h
      rw [if_neg hx] at ha hb h
      by_cases hxa : x = a
      · have hxb : ¬ (x = b) := by
          intro he
          rw [hxa.symm.trans he] at h
          exact lt_irrefl _ h
        simp only [firstIdx, if_pos hxa, if_neg hxb]
        omega
      · have hxb : ¬ (x = b) := by
          intro he
          simp only [firstIdx, if_neg hxa, if_pos he] at h
          omega
        have ha' : a ∈ dedupAux (x :: seen) xs := by
          rcases List.mem_cons.mp ha with h1 | h1
          · exact absurd h1.symm hxa
          · exact h1
        have hb' : b ∈ dedupAux (x :: seen) xs := by
          rcases List.mem_cons.mp hb with h1 | h1
          · exact absurd h1.symm hxb
          · exact h1
        have h' : firstIdx a (dedupAux (x :: seen) xs)
            < firstIdx b (dedupAux (x :: seen) xs) := by
          simp only [firstIdx, if_neg hxa, if_neg hxb] at h
          omega
        have := ih (x :: seen) a b ha' hb' h'
        simp only [firstIdx, if_neg hxa, if_neg hxb]
        omega

/-- Membership is preserved by `dedupFirst`. -/
theorem mem_dedupFirst {α : Type} [DecidableEq α] (a : α) (l : List α) :
    a ∈ dedupFirst l ↔ a ∈ l := by
  simp [dedupFirst, mem_dedupAux]

/-- `dedupFirst` yields no duplicates. -/
theorem nodup_dedupFirst {α : Type} [DecidableEq α] (l : List α) :
    (dedupFirst l).Nodup :=
  nodup_dedupAux l []

/-- `dedupFirst` preserves the relative order of first occurrences. -/
theorem firstIdx_dedupFirst_lt {α : Type} [DecidableEq α] (l : List α)
    (a b : α) (ha : a ∈ dedupFirst l) (hb : b ∈ dedupFirst l)
    (h : firstIdx a (dedupFirst l) < firstIdx b (dedupFirst l)) :
    firstIdx a l < firstIdx b l :=
  firstIdx_dedupAux_lt l [] a b ha hb h

/-- A populated de-duplicated field is duplicate-free, has the same
members as the raw match list, and lists them in first-occurrence
order. -/
theorem optField_dedup_props (raw : List (List Char)) :
    ∀ l, (if raw.length > 0 then some (dedupFirst raw) else none) = some l →
      l.Nodup ∧ (∀ x, x ∈ l ↔ x ∈ raw) ∧
      (∀ a b, a ∈ l → b ∈ l → firstIdx a l < firstIdx b l →
        firstIdx a raw < firstIdx b raw) := by
  intro l hl
  cases raw with
  | nil => simp at hl
  | cons x xs =>
    simp only [List.length_cons, gt_iff_lt, Nat.succ_pos, if_pos,
      Option.some.injEq] at hl
    rw [← hl]
    exact ⟨nodup_dedupFirst _, fun y => mem_dedupFirst y _,
      fun a b ha hb h => firstIdx_dedupFirst_lt _ a b ha hb h⟩

/-- C10: whenever the persons, locations, or actionVerbs field is
present, it contains no duplicates and lists the distinct matched values
in order of first occurrence among the extractor's raw matches. -/
theorem entities_dedup_first_occurrence
    (chrono : List Char → List (List Char)) (title desc : List Char) :
    (∀ l, (classify chrono title desc).extracted_entities.persons = some l →
      l.Nodup ∧ (∀ x, x ∈ l ↔ x ∈ personsRaw (fullTextOf title desc)) ∧
      (∀ a b, a ∈ l → b ∈ l → firstIdx a l < firstIdx b l →
        firstIdx a (personsRaw (fullTextOf title desc))
          < firstIdx b (personsRaw (fullTextOf title desc)))) ∧
    (∀ l, (classify chrono title desc).extracted_entities.locations = some l →
      l.Nodup ∧ (∀ x, x ∈ l ↔ x ∈ locationsRaw (fullTextOf title desc)) ∧
      (∀ a b, a ∈ l → b ∈ l → firstIdx a l < firstIdx b l →
        firstIdx a (locationsRaw (fullTextOf title desc))
          < firstIdx b (locationsRaw (fullTextOf title desc)))) ∧
    (∀ l, (classify chrono title desc).extracted_entities.actionVerbs = some l →
      l.Nodup ∧ (∀ x, x ∈ l ↔ x ∈ verbsRaw (fullTextOf title desc)) ∧
      (∀ a b, a ∈ l → b ∈ l → firstIdx a l < firstIdx b l →
        firstIdx a (verbsRaw (fullTextOf title desc))
          < firstIdx b (verbsRaw (fullTextOf title desc)))) := by
  rw [classify_entities, entities_persons, entities_locations,
    entities_actionVerbs]
  exact ⟨optField_dedup_props _, optField_dedup_props _,
    optField_dedup_props _⟩

/-- Witness for C10: "check check send" has the raw verb matches
check, check, send; the field keeps the duplicate-free first-occurrence
list check, send, which the theorem certifies duplicate-free. -/
theorem entities_dedup_first_occurrence_witness :
    (classify noDates ("check check send".toList)
      ("".toList)).extracted_entities.actionVerbs
      = some [("check".toList), ("send".toList)] ∧
    ([("check".toList), ("send".toList)] : List (List Char)).Nodup := by
  constructor
  · rw [classify_entities, entities_actionVerbs]; decide
  · exact ((entities_dedup_first_occurrence noDates ("check check send".toList)
      ("".toList)).2.2 _
      (by rw [classify_entities, entities_actionVerbs]; decide)).1

/-! ## Action-verb pipeline: code side versus specification side -/

/-- Lowering a character moves `A`–`Z` up by 32 and fixes the rest. -/
theorem toNat_charLower (c : Char) :
    (charLower c).toNat = (if isUpper c then c.toNat + 32 else c.toNat) := by
  unfold charLower
  by_cases h : isUpper c
  · rw [if_pos h, if_pos h]
    have h2 : c.toNat + 32 < 55296 := by
      unfold isUpper at h
      simp only [Bool.and_eq_true, decide_eq_true_eq] at h
      omega
    have h3 : Nat.isValidChar (c.toNat + 32) := Or.inl h2
    unfold Char.ofNat
    rw [dif_pos h3]
    simp [Char.ofNatAux, Char.toNat, UInt32.toNat, BitVec.toNat_ofNatLt]
  · rw [if_neg h, if_neg h]

/-- Lower-casing never changes whether a character is whitespace. -/
theorem isWs_charLower (c : Char) : isWs (charLower c) = isWs c := by
  have hiff : isWs (charLower c) = true ↔ isWs c = true := by
    unfold isWs
    rw [toNat_charLower]
    by_cases h : isUpper c
    · rw [if_pos h]
      unfold isUpper at h
      simp only [Bool.and_eq_true, decide_eq_true_eq] at h
      simp only [Bool.or_eq_true, decide_eq_true_eq]
      omega
    · rw [if_neg h]
  cases h1 : isWs (charLower c) <;> cases h2 : isWs c <;> simp_all

/-- The run splitter commutes with lower-casing, because lower-casing
preserves whitespace. -/
theorem runsAux_map_charLower (s : List Char) :
    ∀ acc, runsAux (fun x => ! isWs x) (acc.map charLower) (s.map charLower)
      = (runsAux (fun x => ! isWs x) acc s).map (List.map charLower) := by
  induction s with
  | nil =>
    intro acc
    by_cases h : acc = []
    · subst h; rfl
    · simp [runsAux, List.isEmpty_iff, List.map_eq_nil_iff, h,
        List.map_reverse]
  | cons c t ih =>
    intro acc
    simp only [List.map_cons, runsAux, isWs_charLower]
    by_cases h : isWs c
    · simp only [h, Bool.not_true, Bool.false_eq_true, if_false]
      have h0 := ih []
      simp only [List.map_nil] at h0
      by_cases ha : acc = []
      · subst ha; simpa using h0
      · simp [List.isEmpty_iff, List.map_eq_nil_iff, ha, h0, List.map_reverse]
    · have hf : isWs c = false := by simp_all
      simp only [hf, Bool.not_false, if_true]
      simpa using ih (c :: acc)

/-- Splitting the lower-cased text on whitespace gives the lower-cased
tokens of the original text. -/
theorem jsSplitWs_map_charLower (s : List Char) :
    jsSplitWs (s.map charLower) = (jsSplitWs s).map (List.map charLower) := by
  cases s with
  | nil => rfl
  | cons c t =>
    cases hd : (c :: t).getLast? with
    | none => simp at hd
    | some d =>
      have hd2 : ((c :: t).map charLower).getLast? = some (charLower d) := by
        rw [List.getLast?_map, hd]
        rfl
      rw [jsSplitWs.eq_def, jsSplitWs.eq_def]
      simp only [List.map_cons] at hd2 ⊢
      rw [hd, hd2]
      simp only [isWs_charLower]
      have hr := runsAux_map_charLower (c :: t) []
      simp only [List.map_nil, List.map_cons] at hr
      by_cases h1 : isWs c <;> by_cases h2 : isWs d <;>
        simp [h1, h2, runsBy, hr]

/-- The action-verb token sequence as the specification words it: split
the combined text on whitespace, lower-case each token, strip all
non-letter characters, and keep exactly the tokens equal to a lexicon
verb. -/
def specActionVerbs (s : List Char) : List (List Char) :=
  ((jsSplitWs s).map (fun w => (w.map charLower).filter isLower)).filter
    (fun w => actionVerbLexicon.contains w)

/-- The code's pipeline (lower-case the whole text, then split and
clean) computes the specification's pipeline (split, then lower-case and
strip each token). -/
theorem verbsRaw_eq_spec (s : List Char) :
    verbsRaw s = specActionVerbs s := by
  unfold verbsRaw specActionVerbs
  rw [jsSplitWs_map_charLower, List.map_map]
  rfl

/-- C6: the actionVerbs field is exactly the de-duplicated sequence of
whitespace-split, lower-cased, letter-stripped tokens that are lexicon
verbs (absent when there is none); the concrete example yields the five
expected verbs. -/
theorem actionVerbs_token_pipeline (chrono : List Char → List (List Char))
    (title desc : List Char) :
    ((classify chrono title desc).extracted_entities.actionVerbs
      = if (specActionVerbs (fullTextOf title desc)).length > 0
          then some (dedupFirst (specActionVerbs (fullTextOf title desc)))
          else none) ∧
    ((classify chrono ("Schedule and prepare meeting".toList)
        ("Review documents, update slides, and send invites".toList)
      ).extracted_entities.actionVerbs
      = some [("schedule".toList), ("prepare".toList), ("review".toList),
          ("update".toList), ("send".toList)]) := by
  constructor
  · rw [classify_entities, entities_actionVerbs, verbsRaw_eq_spec]
  · rw [classify_entities, entities_actionVerbs]
    decide

/-- Witness for C5: with the date parser finding nothing in "Task ",
`classify("Task", "")` has every entity field absent. -/
theorem entities_present_iff_found_witness :
    (classify noDates ("Task".toList) ("".toList)).extracted_entities
      = ⟨none, none, none, none⟩ :=
  (entities_present_iff_found noDates ("Task".toList)
    ("".toList)).2.2.2.2.2.2.2.2 noDates rfl
